import Mathlib

/-!
Verification of the layout-preserving PDF translation pipeline
(`translator.py`, `reconstructor.py`, `utils.py`, `config.py`).

The Python sources are embedded shallowly:
* geometric and fragment records (`BoundingBox`, `TextBlock`, `PageInfo`,
  `TranslatorConfig`) become Lean structures with rational coordinates;
* the stateful translator (cache dictionary, call counting, external API)
  becomes explicit state passing, with the external translation capability
  modelled as an oracle function returning `Option String`
  (`none` = the call raised / failed);
* `while`/`for` loops become structural recursion or folds;
* Python string primitives (`str.strip`, `str.split`, `str.startswith`,
  `str.join`) are re-implemented structurally on the character list of a
  `String`, so that every definition evaluates inside the kernel;
* PDF rendering side effects become a value-level description of the
  composed pages (`ComposedPage`).
-/

namespace PdfTranslator

/-! ### Python string primitives, structurally on `String.data` -/

/-- Python `str.strip()`: remove leading and trailing whitespace. -/
def pyStrip (s : String) : String :=
  ⟨((s.data.dropWhile Char.isWhitespace).reverse.dropWhile Char.isWhitespace).reverse⟩

/-- Python `str.startswith(p)`. -/
def pyStartsWith (s p : String) : Bool :=
  p.data.isPrefixOf s.data

/-- Helper for `pySplitOn`: greedy left-to-right split of a character list
on the (non-empty) delimiter `d :: ds`.  The `fuel` argument only bounds the
recursion; `fuel = length of the input` always suffices because every step
consumes at least one character. -/
def pySplitOnAux (d : Char) (ds : List Char) : Nat → List Char → List Char → List (List Char)
  | _, [], acc => [acc.reverse]
  | 0, l, acc => [acc.reverse ++ l]
  | fuel + 1, c :: cs, acc =>
    if (d :: ds).isPrefixOf (c :: cs) then
      acc.reverse :: pySplitOnAux d ds fuel (cs.drop ds.length) []
    else
      pySplitOnAux d ds fuel cs (c :: acc)

/-- Python `str.split(delim)` for a non-empty delimiter: non-overlapping
left-to-right splits, keeping empty pieces (the split of the empty
string is a one-element list holding the empty string). -/
def pySplitOn (s delim : String) : List String :=
  match delim.data with
  | [] => [s]
  | d :: ds => (pySplitOnAux d ds s.data.length s.data []).map fun l => ⟨l⟩

/-- Python `sep.join(parts)`. -/
def pyJoin (sep : String) : List String → String
  | [] => ""
  | [x] => x
  | x :: xs => x ++ sep ++ pyJoin sep xs

/-! ### Data model (`utils.py`, `config.py`) -/

/-- `utils.BoundingBox`: a rectangle `x0,y0,x1,y1` in page space. -/
structure BoundingBox where
  x0 : ℚ
  y0 : ℚ
  x1 : ℚ
  y1 : ℚ
deriving DecidableEq, Repr

/-- `BoundingBox.width` property: `x1 - x0`. -/
def BoundingBox.width (b : BoundingBox) : ℚ := b.x1 - b.x0

/-- `BoundingBox.height` property: `y1 - y0`. -/
def BoundingBox.height (b : BoundingBox) : ℚ := b.y1 - b.y0

/-- `utils.TextBlock`: a text fragment extracted from the PDF.
`translated_text` defaults to `""` as in the Python dataclass. -/
structure TextBlock where
  text : String
  bbox : BoundingBox
  font : String
  size : ℚ
  color : ℚ × ℚ × ℚ
  page : Nat
  translated_text : String := ""
deriving DecidableEq, Repr

/-- `utils.PageInfo`: page index and dimensions. -/
structure PageInfo where
  page_number : Nat
  width : ℚ
  height : ℚ
  rotation : Int := 0
deriving DecidableEq, Repr

/-- The fields of `config.TranslatorConfig` consumed by the code under
verification (font clamping and batching). -/
structure TranslatorConfig where
  max_font_reduction : ℚ
  min_font_size : ℚ
  batch_size : Nat
deriving DecidableEq, Repr

/-- Default values of `config.TranslatorConfig`
(`max_font_reduction = 0.8`, `min_font_size = 6.0`, `batch_size = 10`). -/
def defaultConfig : TranslatorConfig :=
  { max_font_reduction := (4 : ℚ)/5, min_font_size := 6, batch_size := 10 }

/-! ### Batch response parsing (`translator._parse_batch_response`) -/

/-- The numbering strip inside `_parse_batch_response`: if the cleaned
segment starts with one of `1.` through `9.`, drop the first two characters
and strip again (`cleaned[2:].strip()`). -/
def cleanSegment (s : String) : String :=
  if pyStartsWith s "1." || pyStartsWith s "2." || pyStartsWith s "3." ||
     pyStartsWith s "4." || pyStartsWith s "5." || pyStartsWith s "6." ||
     pyStartsWith s "7." || pyStartsWith s "8." || pyStartsWith s "9." then
    pyStrip ⟨s.data.drop 2⟩
  else s

/-- The delimiter-separated segments of a reply after trimming, with the
segments that became empty dropped and numbering stripped — the list the
loop of `_parse_batch_response` builds before padding. -/
def nonEmptySegments (response : String) : List String :=
  (((pySplitOn response "---").map pyStrip).filter (fun s => s ≠ "")).map cleanSegment

/-- `translator._parse_batch_response`: split the reply on `---`, trim,
drop segments that trimmed to empty, strip numbering, pad with `""` up to
`expected`, truncate to `expected`. -/
def parseBatchResponse (response : String) (expected : Nat) : List String :=
  let translations := nonEmptySegments response
  (translations ++ List.replicate (expected - translations.length) "").take expected

/-! ### The translator state and single-text translation
(`translator.TextTranslator`) -/

/-- The mutable state of `TextTranslator` relevant to the claims:
`translation_cache` (a string-keyed dictionary, modelled as an association
list where the newest binding shadows older ones) together with a count of
external API calls issued so far. -/
structure TransState where
  cache : List (String × String)
  calls : Nat
deriving DecidableEq, Repr

/-- The cache key `f"{text}:{source_lang}:{target_lang}"`. -/
def cacheKey (text src tgt : String) : String :=
  text ++ ":" ++ src ++ ":" ++ tgt

/-- `translator.TextTranslator.translate_text`.  The external chat
completion is the oracle `call : text → src → tgt → Option String`;
`none` models the API call raising.  Whitespace-only text is returned
unchanged with no call; a cached key is served from the cache with no
call; on success the reply content is stripped, cached and returned; on
failure the source text is returned unchanged and nothing is cached. -/
def translateText (call : String → String → String → Option String)
    (s : TransState) (text src tgt : String) : String × TransState :=
  if pyStrip text = "" then (text, s)
  else
    match (s.cache.lookup (cacheKey text src tgt) : Option String) with
    | some v => (v, s)
    | none =>
      match call text src tgt with
      | some reply =>
        let translated := pyStrip reply
        (translated, ⟨(cacheKey text src tgt, translated) :: s.cache, s.calls + 1⟩)
      | none => (text, ⟨s.cache, s.calls + 1⟩)

/-! ### Batch translation (`translator._translate_batch_with_context`) -/

/-- The non-whitespace texts of a batch:
`[block.text for block in batch if block.text.strip()]`. -/
def nonWsTexts (batch : List TextBlock) : List String :=
  (batch.filter (fun b => !(pyStrip b.text == ""))).map (·.text)

/-- The assignment loop of `_translate_batch_with_context` (lines 188-204):
walk the batch in order; a block whose text strips to non-empty consumes the
next parsed translation (writing it into the cache keyed by the text of
the block); when translations run out, or for whitespace-only blocks, the
own text of the block is used as fallback.  Only `translated_text` is written. -/
def applyTranslations (src tgt : String) :
    List TextBlock → List String → List (String × String) →
    List TextBlock × List (String × String)
  | [], _, c => ([], c)
  | b :: bs, ts, c =>
    if pyStrip b.text = "" then
      let r := applyTranslations src tgt bs ts c
      ({ b with translated_text := b.text } :: r.1, r.2)
    else
      match ts with
      | t :: ts' =>
        let r := applyTranslations src tgt bs ts' ((cacheKey b.text src tgt, t) :: c)
        ({ b with translated_text := t } :: r.1, r.2)
      | [] =>
        let r := applyTranslations src tgt bs [] c
        ({ b with translated_text := b.text } :: r.1, r.2)

/-- `translator._translate_batch_individually`: the fallback that translates
every block of a failed batch one by one via `translate_text`. -/
def translateBatchIndividually (call : String → String → String → Option String)
    (src tgt : String) (s : TransState) :
    List TextBlock → List TextBlock × TransState
  | [] => ([], s)
  | b :: bs =>
    let r := translateText call s b.text src tgt
    let rest := translateBatchIndividually call src tgt r.2 bs
    ({ b with translated_text := r.1 } :: rest.1, rest.2)

/-- `translator._translate_batch_with_context`.  `batchCall` is the batch
chat completion (receiving the non-whitespace texts; `none` models the call
raising).  A batch with no non-whitespace texts returns immediately with no
call; on success the stripped reply is parsed and assigned positionally; on
failure the batch falls back to individual translation. -/
def translateBatchWithContext (batchCall : List String → Option String)
    (call : String → String → String → Option String)
    (src tgt : String) (s : TransState) (batch : List TextBlock) :
    List TextBlock × TransState :=
  let texts := nonWsTexts batch
  if texts.isEmpty then (batch, s)
  else
    match batchCall texts with
    | some reply =>
      let translations := parseBatchResponse (pyStrip reply) texts.length
      let r := applyTranslations src tgt batch translations s.cache
      (r.1, ⟨r.2, s.calls + 1⟩)
    | none => translateBatchIndividually call src tgt ⟨s.cache, s.calls + 1⟩ batch

/-! ### Page-level translation (`translator._translate_page_blocks`) -/

/-- The sort key `(b.bbox.y0, b.bbox.x0)` of
`sorted(page_blocks, key=lambda b: (b.bbox.y0, b.bbox.x0))`:
lexicographic order on the pair. -/
def keyLE (a b : TextBlock) : Prop :=
  a.bbox.y0 < b.bbox.y0 ∨ (a.bbox.y0 = b.bbox.y0 ∧ a.bbox.x0 ≤ b.bbox.x0)

instance : DecidableRel keyLE := fun a b => by
  unfold keyLE; exact inferInstance

instance : IsTotal TextBlock keyLE := by
  constructor
  intro a b
  unfold keyLE
  rcases lt_trichotomy a.bbox.y0 b.bbox.y0 with h | h | h
  · exact Or.inl (Or.inl h)
  · rcases le_total a.bbox.x0 b.bbox.x0 with h' | h'
    · exact Or.inl (Or.inr ⟨h, h'⟩)
    · exact Or.inr (Or.inr ⟨h.symm, h'⟩)
  · exact Or.inr (Or.inl h)

instance : IsTrans TextBlock keyLE := by
  constructor
  intro a b c hab hbc
  unfold keyLE at *
  rcases hab with h1 | ⟨h1, h1x⟩ <;> rcases hbc with h2 | ⟨h2, h2x⟩
  · exact Or.inl (h1.trans h2)
  · exact Or.inl (h2 ▸ h1)
  · exact Or.inl (h1 ▸ h2)
  · exact Or.inr ⟨h1.trans h2, h1x.trans h2x⟩

/-- `sorted(page_blocks, key=lambda b: (b.bbox.y0, b.bbox.x0))`: a stable
sort on the `(y0, x0)` key. -/
def sortBlocks (blocks : List TextBlock) : List TextBlock :=
  List.insertionSort keyLE blocks

/-- `translator._build_context`: up to 3 non-whitespace texts before the
batch and up to 3 after, stripped and joined with single spaces. -/
def buildContext (all : List TextBlock) (i B : Nat) : String :=
  let prev := (all.drop (i - 3)).take (min i 3)
  let post := (all.drop (i + B)).take 3
  let parts := ((prev ++ post).filter (fun b => !(pyStrip b.text == ""))).map
    (fun b => pyStrip b.text)
  pyJoin " " parts

/-- `translator._translate_page_blocks`: sort the blocks of the page by
`(y0, x0)`, walk them in slices of `batch_size`, build a context for each
slice and translate it with `_translate_batch_with_context`, concatenating
the results in order.  The batch API call is the oracle
`batchCall texts context`. -/
def translatePageBlocks (batchCall : List String → String → Option String)
    (call : String → String → String → Option String)
    (src tgt : String) (B : Nat) (s : TransState) (blocks : List TextBlock) :
    List TextBlock × TransState :=
  let sorted := sortBlocks blocks
  let nChunks := (sorted.length + B - 1) / B
  (List.range nChunks).foldl
    (fun acc k =>
      let batch := (sorted.drop (k * B)).take B
      let ctx := buildContext sorted (k * B) B
      let r := translateBatchWithContext (fun ts => batchCall ts ctx) call src tgt acc.2 batch
      (acc.1 ++ r.1, r.2))
    ([], s)

/-! ### Reconstruction (`reconstructor.PDFReconstructor`) -/

/-- Line 191 of `reconstructor._add_translated_text`:
`text = text_block.translated_text or text_block.text` — Python `or`
falls back to the source text when `translated_text` is the empty string. -/
def renderedText (b : TextBlock) : String :=
  if b.translated_text = "" then b.text else b.translated_text

/-- `reconstructor._calculate_font_size`: whitespace-only text keeps the
original size; text whose estimated box (`len·size·0.55` wide,
`size·1.2` high) fits the available box (`width·0.95`, `height·0.90`)
keeps the original size; otherwise the size is rescaled by
`max(min(widthScale, heightScale, 1), max_font_reduction)` and finally
clamped from below by `min_font_size`. -/
def calculateFontSize (cfg : TranslatorConfig) (text : String)
    (bbox : BoundingBox) (original_size : ℚ) : ℚ :=
  if pyStrip text = "" then original_size
  else
    let estimated_width := (text.data.length : ℚ) * original_size * ((11 : ℚ)/20)
    let estimated_height := original_size * ((6 : ℚ)/5)
    let available_width := bbox.width * ((19 : ℚ)/20)
    let available_height := bbox.height * ((9 : ℚ)/10)
    if estimated_width ≤ available_width ∧ estimated_height ≤ available_height then
      original_size
    else
      let width_scale := if 0 < estimated_width then available_width / estimated_width else 1
      let height_scale := if 0 < estimated_height then available_height / estimated_height else 1
      let scale := max (min (min width_scale height_scale) 1) cfg.max_font_reduction
      max (original_size * scale) cfg.min_font_size

/-- Lines 158-162 of `reconstructor.create_side_by_side_pdf`: the deep copy
whose bounding box is shifted right by `offset_x`; every other field is
taken over unchanged, and the source block is left untouched. -/
def shiftBlock (offset_x : ℚ) (b : TextBlock) : TextBlock :=
  { b with bbox := { b.bbox with x0 := b.bbox.x0 + offset_x, x1 := b.bbox.x1 + offset_x } }

/-- The value-level description of one composed side-by-side page: its
dimensions, the index of the original page embedded on both halves, and the
shifted copies of the text blocks of the page drawn on the right half, in
`(y0, x0)` draw order. -/
structure ComposedPage where
  width : ℚ
  height : ℚ
  sourcePage : Nat
  drawnBlocks : List TextBlock
deriving DecidableEq, Repr

/-- The per-page body of `reconstructor.create_side_by_side_pdf`: a page of
double width plus a 10pt separator, the original page embedded left and
right, and the blocks of the page (filtered by page index, sorted by the
key `(y0, x0)`)
drawn shifted by `width + separator`. -/
def composePage (text_blocks : List TextBlock) (p : PageInfo) : ComposedPage :=
  let separator_width : ℚ := 10
  let page_text_blocks :=
    List.insertionSort keyLE (text_blocks.filter (fun b => b.page == p.page_number))
  let offset_x := p.width + separator_width
  { width := p.width * 2 + separator_width
    height := p.height
    sourcePage := p.page_number
    drawnBlocks := page_text_blocks.map (shiftBlock offset_x) }

/-- `reconstructor.create_side_by_side_pdf`: restrict the page list to the
optional half-open range `[start, end)` of page numbers, then compose each
surviving page in order. -/
def createSideBySidePdf (pages : List PageInfo) (text_blocks : List TextBlock)
    (page_range : Option (Nat × Nat)) : List ComposedPage :=
  let pages_to_process :=
    match page_range with
    | some r => pages.filter (fun (p : PageInfo) =>
        decide (r.1 ≤ p.page_number) && decide (p.page_number < r.2))
    | none => pages
  pages_to_process.map (composePage text_blocks)

/-- `reconstructor.process_large_pdf_in_batches`: split the document into
`ceil(total / pages_per_batch)` page-range batches
`[k·ppb, min(k·ppb + ppb, total))` and compose each range with
`create_side_by_side_pdf`, collecting the batch outputs in ascending order. -/
def processLargePdfInBatches (pages : List PageInfo) (text_blocks : List TextBlock)
    (pages_per_batch : Nat) : List (List ComposedPage) :=
  let total_pages := pages.length
  let num_batches := (total_pages + pages_per_batch - 1) / pages_per_batch
  (List.range num_batches).map fun batch_idx =>
    let start_page := batch_idx * pages_per_batch
    let end_page := min (start_page + pages_per_batch) total_pages
    createSideBySidePdf pages text_blocks (some (start_page, end_page))

/-- `reconstructor.merge_batch_pdfs`: append the pages of the batch
documents in
ascending batch order into one final document. -/
def mergeBatchPdfs (docs : List (List ComposedPage)) : List ComposedPage :=
  docs.flatten

/-! ### Word wrapping (`reconstructor._wrap_text`, `utils.split_text_to_fit`)

Text is embedded as `List Char` here so that the Python whitespace-run
`str.split()` and the single-space `str.join` are plain structural
recursions. -/

/-- Helper for `pySplit`: walk the characters accumulating the current word
(reversed); whitespace flushes the accumulated word (if non-empty). -/
def pySplitAux : List Char → List Char → List (List Char)
  | [], acc => if acc.isEmpty then [] else [acc.reverse]
  | c :: cs, acc =>
    if c.isWhitespace then
      if acc.isEmpty then pySplitAux cs []
      else acc.reverse :: pySplitAux cs []
    else pySplitAux cs (c :: acc)

/-- Python `str.split()` (no argument): split on runs of whitespace,
producing no empty words. -/
def pySplit (s : List Char) : List (List Char) := pySplitAux s []

/-- The Python join of words with single spaces, on character lists. -/
def joinWords : List (List Char) → List Char
  | [] => []
  | [w] => w
  | w :: ws => w ++ ' ' :: joinWords ws

/-- The greedy word-wrap loop shared by `reconstructor._wrap_text` and
`utils.split_text_to_fit`, kept at the level of word groups: a candidate
line is the current line joined with the next word; it is accepted while
`len(candidate) * font_size * avg_char_width ≤ max_width`; otherwise the
current line is closed (a word that fits no line is emitted alone). -/
def wrapCore (font_size avg_char_width max_width : ℚ) :
    List (List Char) → List (List Char) → List (List (List Char))
  | current, [] => if current.isEmpty then [] else [current]
  | current, w :: ws =>
    let test_line := joinWords (current ++ [w])
    if (test_line.length : ℚ) * font_size * avg_char_width ≤ max_width then
      wrapCore font_size avg_char_width max_width (current ++ [w]) ws
    else if current.isEmpty then
      [w] :: wrapCore font_size avg_char_width max_width [] ws
    else
      current :: wrapCore font_size avg_char_width max_width [w] ws

/-- `reconstructor._wrap_text`: whitespace-only text wraps to no lines;
otherwise greedy wrap with `AVG_CHAR_WIDTH = 0.55`, falling back to the
whole text as a single line if no lines were produced. -/
def wrapText (text : List Char) (font_size max_width : ℚ) : List (List Char) :=
  if text.all Char.isWhitespace then []
  else
    let lines := (wrapCore font_size ((11 : ℚ)/20) max_width [] (pySplit text)).map joinWords
    if lines.isEmpty then [text] else lines

/-- `utils.split_text_to_fit`: the same greedy wrap with a configurable
`avg_char_width` (default 0.5) and no whitespace-only early return. -/
def splitTextToFit (text : List Char) (max_width font_size avg_char_width : ℚ) :
    List (List Char) :=
  (wrapCore font_size avg_char_width max_width [] (pySplit text)).map joinWords

/-- A word produced by whitespace splitting: non-empty and free of
whitespace characters. -/
def goodWord (w : List Char) : Prop := w ≠ [] ∧ ∀ c ∈ w, ¬c.isWhitespace

/-- The fields of a `TextBlock` other than `translated_text`. -/
def frameOf (b : TextBlock) : String × BoundingBox × String × ℚ × (ℚ × ℚ × ℚ) × Nat :=
  (b.text, b.bbox, b.font, b.size, b.color, b.page)

/-! ### Helper lemmas -/

/-- `_parse_batch_response` pads and truncates to exactly the expected
count. -/
theorem parseBatchResponse_length (response : String) (expected : Nat) :
    (parseBatchResponse response expected).length = expected := by
  unfold parseBatchResponse
  simp only [List.length_take, List.length_append, List.length_replicate]
  omega

/-- The parsed batch response is the list of non-empty trimmed segments,
truncated to the expected count and padded at the tail with empty strings. -/
theorem parseBatchResponse_eq (response : String) (expected : Nat) :
    parseBatchResponse response expected =
      (nonEmptySegments response).take expected ++
        List.replicate (expected - (nonEmptySegments response).length) "" := by
  unfold parseBatchResponse
  rw [List.take_append_eq_append_take, List.take_replicate]
  simp

/-! ### Claim theorems -/

/-- C3: for every reply string and every expected count, batch-response
parsing returns a list of length exactly `expected` — padding with empty
strings when the reply yields fewer segments, truncating when it yields
more.  The embedded parser is a total function: the Python code performs
only `split`/`strip`/slicing, none of which can raise. -/
theorem c3_parse_length_exact (response : String) (expected : Nat) :
    (parseBatchResponse response expected).length = expected :=
  parseBatchResponse_length response expected

/-- C2 (counterexample): in the reply `"a------b"` the segment at position 1
trims to the empty string, yet the returned entry at position 1 is `"b"`,
not `""` — empty-after-trim segments are dropped, so the i-th returned
entry does not correspond to the i-th delimiter-separated segment. -/
theorem c2_counterexample :
    ((pySplitOn "a------b" "---").map pyStrip).get? 1 = some "" ∧
      (parseBatchResponse "a------b" 3).get? 1 = some "b" ∧
      ¬(parseBatchResponse "a------b" 3).get? 1 = some "" := by
  refine ⟨by decide, by decide, by decide⟩

/-- C2 (amended): a delimiter-separated segment that becomes empty after
trimming is dropped, not kept; the returned entries are exactly the
non-empty trimmed segments (numbering stripped) in order, truncated to the
expected count and padded at the tail with empty strings. -/
theorem c2_empty_segments_dropped (response : String) (expected : Nat) :
    parseBatchResponse response expected =
      (nonEmptySegments response).take expected ++
        List.replicate (expected - (nonEmptySegments response).length) "" :=
  parseBatchResponse_eq response expected

/-- C4 (counterexample): the computed font size is *not* always at least
`config.min_font_size`: for the one-character text `"a"` in a large box
with original size 3, the estimated text fits, so `_calculate_font_size`
returns the original size 3 unclamped, below the default
`min_font_size = 6`. -/
theorem c4_counterexample :
    ¬ defaultConfig.min_font_size ≤
        calculateFontSize defaultConfig "a" ⟨0, 0, 100, 100⟩ 3 := by
  have h : calculateFontSize defaultConfig "a" ⟨0, 0, 100, 100⟩ 3 = 3 := by
    unfold calculateFontSize
    rw [if_neg (by decide)]
    simp only []
    rw [if_pos]
    have h1 : (("a".data.length : ℚ)) = 1 := by decide
    rw [h1]
    constructor <;> norm_num [BoundingBox.width, BoundingBox.height]
  rw [h]
  norm_num [defaultConfig]

/-- C4 (amended): provided the original size is itself at least
`config.min_font_size` (and non-negative), the computed size is at least
`config.min_font_size`; and whenever the width/height fit would otherwise
force a smaller value (the estimated dimensions exceed the available box
for non-whitespace text, so the size is recomputed), the computed size is
at least `original_size × config.max_font_reduction`.  Without the first
proviso the claim fails, because the fits-already and whitespace-only
paths return `original_size` unclamped. -/
theorem c4_font_floor (cfg : TranslatorConfig) (text : String) (bbox : BoundingBox)
    (original_size : ℚ) (hmin : cfg.min_font_size ≤ original_size)
    (h0 : (0 : ℚ) ≤ original_size) :
    cfg.min_font_size ≤ calculateFontSize cfg text bbox original_size ∧
    ((¬((text.data.length : ℚ) * original_size * ((11 : ℚ)/20) ≤ bbox.width * ((19 : ℚ)/20) ∧
        original_size * ((6 : ℚ)/5) ≤ bbox.height * ((9 : ℚ)/10)) ∧ ¬(pyStrip text = "")) →
      original_size * cfg.max_font_reduction ≤ calculateFontSize cfg text bbox original_size) := by
  unfold calculateFontSize
  by_cases hws : pyStrip text = ""
  · rw [if_pos hws]
    exact ⟨hmin, fun h => absurd hws h.2⟩
  · rw [if_neg hws]
    simp only []
    by_cases hfit : (text.data.length : ℚ) * original_size * ((11 : ℚ)/20) ≤
        BoundingBox.width bbox * ((19 : ℚ)/20) ∧
        original_size * ((6 : ℚ)/5) ≤ BoundingBox.height bbox * ((9 : ℚ)/10)
    · rw [if_pos hfit]
      exact ⟨hmin, fun h => absurd hfit h.1⟩
    · rw [if_neg hfit]
      constructor
      · exact le_max_right _ _
      · intro _
        have hscale : cfg.max_font_reduction ≤
            max (min (min (if 0 < (text.data.length : ℚ) * original_size * ((11 : ℚ)/20) then
              BoundingBox.width bbox * ((19 : ℚ)/20) /
                ((text.data.length : ℚ) * original_size * ((11 : ℚ)/20)) else 1)
              (if 0 < original_size * ((6 : ℚ)/5) then
                BoundingBox.height bbox * ((9 : ℚ)/10) / (original_size * ((6 : ℚ)/5)) else 1)) 1)
              cfg.max_font_reduction := le_max_right _ _
        calc original_size * cfg.max_font_reduction
            ≤ original_size * _ := mul_le_mul_of_nonneg_left hscale h0
          _ ≤ _ := le_max_left _ _

/-- C4 (witness): the amended font-floor theorem applied at the default
configuration, text `"hello"`, a 100×100 box and original size 10. -/
theorem c4_font_floor_witness :
    defaultConfig.min_font_size ≤ (10 : ℚ) ∧ (0 : ℚ) ≤ 10 ∧
      defaultConfig.min_font_size ≤
        calculateFontSize defaultConfig "hello" ⟨0, 0, 100, 100⟩ 10 :=
  ⟨by decide, by decide,
    (c4_font_floor defaultConfig "hello" ⟨0, 0, 100, 100⟩ 10 (by decide) (by decide)).1⟩

theorem pySplitAux_words (s : List Char) :
    ∀ acc : List Char, (∀ c ∈ acc, ¬c.isWhitespace) →
      ∀ w ∈ pySplitAux s acc, goodWord w := by
  induction s with
  | nil =>
    intro acc hacc w hw
    simp only [pySplitAux] at hw
    by_cases h : acc.isEmpty
    · simp [h] at hw
    · rw [if_neg h] at hw
      simp only [List.mem_singleton] at hw
      subst hw
      refine ⟨by simpa [List.isEmpty_iff] using h, ?_⟩
      intro c hc
      exact hacc c (List.mem_reverse.mp hc)
  | cons c cs ih =>
    intro acc hacc w hw
    simp only [pySplitAux] at hw
    by_cases hws : c.isWhitespace
    · rw [if_pos hws] at hw
      by_cases h : acc.isEmpty
      · rw [if_pos h] at hw
        exact ih [] (by simp) w hw
      · rw [if_neg h] at hw
        rcases List.mem_cons.mp hw with h1 | h1
        · subst h1
          refine ⟨by simpa [List.isEmpty_iff] using h, ?_⟩
          intro x hx
          exact hacc x (List.mem_reverse.mp hx)
        · exact ih [] (by simp) w h1
    · rw [if_neg hws] at hw
      refine ih (c :: acc) ?_ w hw
      intro x hx
      rcases List.mem_cons.mp hx with h1 | h1
      · subst h1; exact hws
      · exact hacc x h1

theorem pySplit_words (s : List Char) : ∀ w ∈ pySplit s, goodWord w :=
  pySplitAux_words s [] (by simp)

theorem pySplitAux_append_nonws (w : List Char) :
    ∀ (rest acc : List Char), (∀ c ∈ w, ¬c.isWhitespace) →
      pySplitAux (w ++ rest) acc = pySplitAux rest (w.reverse ++ acc) := by
  induction w with
  | nil => intro rest acc _; simp
  | cons c cs ih =>
    intro rest acc hw
    have hc : ¬c.isWhitespace := hw c (by simp)
    simp only [List.cons_append, pySplitAux, if_neg hc, List.append_eq]
    rw [ih rest (c :: acc) (fun x hx => hw x (by simp [hx]))]
    simp

theorem pySplit_joinWords (ws : List (List Char))
    (h : ∀ w ∈ ws, goodWord w) : pySplit (joinWords ws) = ws := by
  induction ws with
  | nil => rfl
  | cons w tail ih =>
    have hw : goodWord w := h w (by simp)
    cases tail with
    | nil =>
      show pySplitAux (joinWords [w]) [] = [w]
      have : joinWords [w] = w ++ [] := by simp [joinWords]
      rw [this, pySplitAux_append_nonws w [] [] hw.2]
      simp only [pySplitAux]
      rw [if_neg (by simp [List.isEmpty_iff, hw.1])]
      simp
    | cons w' t =>
      show pySplitAux (joinWords (w :: w' :: t)) [] = w :: w' :: t
      have hj : joinWords (w :: w' :: t) = w ++ (' ' :: joinWords (w' :: t)) := rfl
      rw [hj, pySplitAux_append_nonws w _ [] hw.2]
      simp only [pySplitAux]
      rw [if_pos (by decide)]
      rw [if_neg (by simp [List.isEmpty_iff, hw.1])]
      have ih' := ih (fun x hx => h x (by simp [hx]))
      unfold pySplit at ih'
      rw [ih']
      simp


theorem wrapCore_flatten (fs acw mw : ℚ) (ws : List (List Char)) :
    ∀ current, (wrapCore fs acw mw current ws).flatten = current ++ ws := by
  induction ws with
  | nil =>
    intro current
    by_cases h : current.isEmpty
    · simp [wrapCore, h, List.isEmpty_iff.mp h]
    · simp [wrapCore, h]
  | cons w ws ih =>
    intro current
    simp only [wrapCore]
    split_ifs with h1 h2
    · rw [ih (current ++ [w])]; simp
    · rw [List.flatten_cons, ih []]
      simp [List.isEmpty_iff.mp h2]
    · rw [List.flatten_cons, ih [w]]
      simp

theorem wrapCore_ne_nil (fs acw mw : ℚ) (ws : List (List Char)) :
    ∀ current, ¬current.isEmpty ∨ ws ≠ [] → wrapCore fs acw mw current ws ≠ [] := by
  induction ws with
  | nil =>
    intro current h
    rcases h with h | h
    · simp [wrapCore, if_neg h, List.isEmpty_iff] at h ⊢
      exact h
    · exact absurd rfl h
  | cons w ws ih =>
    intro current _
    simp only [wrapCore]
    split_ifs with h1 h2
    · exact ih (current ++ [w]) (Or.inl (by simp))
    · simp
    · simp

theorem wrapCore_words (fs acw mw : ℚ) (ws : List (List Char)) :
    ∀ current, (∀ w ∈ current, goodWord w) → (∀ w ∈ ws, goodWord w) →
      ∀ g ∈ wrapCore fs acw mw current ws, ∀ w ∈ g, goodWord w := by
  induction ws with
  | nil =>
    intro current hcur _ g hg w hw
    by_cases h : current.isEmpty
    · simp [wrapCore, h] at hg
    · rw [wrapCore, if_neg h] at hg
      simp only [List.mem_singleton] at hg
      subst hg
      exact hcur w hw
  | cons w0 ws ih =>
    intro current hcur hws g hg w hw
    have hw0 : goodWord w0 := hws w0 (by simp)
    have hws' : ∀ w ∈ ws, goodWord w := fun x hx => hws x (by simp [hx])
    rw [wrapCore] at hg
    split_ifs at hg with h1 h2
    · refine ih (current ++ [w0]) ?_ hws' g hg w hw
      intro x hx
      rcases List.mem_append.mp hx with h | h
      · exact hcur x h
      · simp only [List.mem_singleton] at h; subst h; exact hw0
    · rcases List.mem_cons.mp hg with h | h
      · subst h
        simp only [List.mem_singleton] at hw
        subst hw; exact hw0
      · exact ih [] (by simp) hws' g h w hw
    · rcases List.mem_cons.mp hg with h | h
      · subst h; exact hcur w hw
      · refine ih [w0] ?_ hws' g h w hw
        intro x hx
        simp only [List.mem_singleton] at hx; subst hx; exact hw0

theorem pySplitAux_all_ws (s : List Char) (h : ∀ c ∈ s, c.isWhitespace) :
    pySplitAux s [] = [] := by
  induction s with
  | nil => rfl
  | cons c cs ih =>
    rw [pySplitAux, if_pos (h c (by simp)), if_pos (by simp)]
    exact ih (fun x hx => h x (by simp [hx]))

theorem pySplitAux_ne_nil (s : List Char) :
    ∀ acc, (∃ c ∈ s, ¬c.isWhitespace) ∨ ¬acc.isEmpty → pySplitAux s acc ≠ [] := by
  induction s with
  | nil =>
    intro acc h
    rcases h with ⟨c, hc, _⟩ | h
    · simp at hc
    · simp [pySplitAux, if_neg h, List.isEmpty_iff] at h ⊢
      exact h
  | cons c cs ih =>
    intro acc h
    rw [pySplitAux]
    by_cases hws : c.isWhitespace
    · rw [if_pos hws]
      by_cases hacc : acc.isEmpty
      · rw [if_pos hacc]
        refine ih [] (Or.inl ?_)
        rcases h with ⟨x, hx, hxw⟩ | h
        · rcases List.mem_cons.mp hx with h1 | h1
          · subst h1; exact absurd hws hxw
          · exact ⟨x, h1, hxw⟩
        · exact absurd hacc h
      · rw [if_neg hacc]; simp
    · rw [if_neg hws]
      exact ih (c :: acc) (Or.inr (by simp))

theorem flatten_map_pySplit_joinWords (gs : List (List (List Char)))
    (h : ∀ g ∈ gs, ∀ w ∈ g, goodWord w) :
    ((gs.map joinWords).map pySplit).flatten = gs.flatten := by
  induction gs with
  | nil => rfl
  | cons g gs ih =>
    simp only [List.map_cons, List.flatten_cons]
    rw [pySplit_joinWords g (h g (by simp)), ih (fun x hx => h x (by simp [hx]))]


/-- C10: for every input text and widths, the word-wrapping functions
`_wrap_text` and `split_text_to_fit` lose, duplicate and reorder nothing:
concatenating the whitespace-split words of all output lines, in order,
yields exactly the whitespace-split word list of the input (in particular
no word is ever split across two lines); and the output is non-empty
whenever the input contains at least one word. -/
theorem c10_wrap_conserves_words (t : List Char) (fs mw acw : ℚ) :
    ((wrapText t fs mw).map pySplit).flatten = pySplit t ∧
    ((splitTextToFit t mw fs acw).map pySplit).flatten = pySplit t ∧
    (pySplit t ≠ [] → wrapText t fs mw ≠ [] ∧ splitTextToFit t mw fs acw ≠ []) := by
  have hgood : ∀ fs' acw' mw' : ℚ, ∀ g ∈ wrapCore fs' acw' mw' [] (pySplit t), ∀ w ∈ g, goodWord w :=
    fun fs' acw' mw' => wrapCore_words fs' acw' mw' (pySplit t) [] (by simp) (pySplit_words t)
  have hsplit : ((splitTextToFit t mw fs acw).map pySplit).flatten = pySplit t := by
    unfold splitTextToFit
    rw [flatten_map_pySplit_joinWords _ (hgood fs acw mw)]
    rw [wrapCore_flatten]
    simp
  by_cases hb : t.all Char.isWhitespace
  · have hps : pySplit t = [] := by
      have := pySplitAux_all_ws t (fun c hc => by
        have := List.all_eq_true.mp hb c hc
        simpa using this)
      exact this
    have hwt : wrapText t fs mw = [] := by rw [wrapText, if_pos hb]
    refine ⟨?_, hsplit, ?_⟩
    · rw [hwt, hps]; rfl
    · intro hne; exact absurd hps hne
  · have hex : ∃ x ∈ t, ¬x.isWhitespace := by
      simp only [List.all_eq_true] at hb
      push_neg at hb
      obtain ⟨x, hx, hxw⟩ := hb
      exact ⟨x, hx, by simpa using hxw⟩
    have hne : pySplit t ≠ [] := pySplitAux_ne_nil t [] (Or.inl hex)
    have hcore : wrapCore fs ((11 : ℚ)/20) mw [] (pySplit t) ≠ [] :=
      wrapCore_ne_nil _ _ _ (pySplit t) [] (Or.inr hne)
    have hlines : ¬((wrapCore fs ((11 : ℚ)/20) mw [] (pySplit t)).map joinWords).isEmpty := by
      simp [List.isEmpty_iff, hcore]
    have hwt : wrapText t fs mw =
        (wrapCore fs ((11 : ℚ)/20) mw [] (pySplit t)).map joinWords := by
      rw [wrapText, if_neg hb]
      simp only []
      rw [if_neg hlines]
    refine ⟨?_, hsplit, ?_⟩
    · rw [hwt]
      rw [flatten_map_pySplit_joinWords _ (hgood fs ((11 : ℚ)/20) mw)]
      rw [wrapCore_flatten]
      simp
    · intro _
      constructor
      · rw [hwt]
        simp only [ne_eq, List.map_eq_nil_iff]
        exact hcore
      · unfold splitTextToFit
        simp only [ne_eq, List.map_eq_nil_iff]
        exact wrapCore_ne_nil _ _ _ (pySplit t) [] (Or.inr hne)

/-- C10 (witness): the conservation theorem applied to the text
`"ab cd"` with font size 1 and maximal widths 2. -/
theorem c10_wrap_conserves_words_witness :
    pySplit "ab cd".data ≠ [] ∧
      wrapText "ab cd".data 1 2 ≠ [] ∧ splitTextToFit "ab cd".data 2 1 1 ≠ [] :=
  ⟨by decide, (c10_wrap_conserves_words "ab cd".data 1 2 1).2.2 (by decide)⟩

/-- With an empty cache and an external call that always fails, the
individual fallback sets the `translated_text` of every block to its own source
text and writes nothing to the cache. -/
theorem translateBatchIndividually_all_fail
    (call : String → String → String → Option String) (src tgt : String)
    (hc : ∀ t u v, call t u v = none) :
    ∀ (batch : List TextBlock) (calls : Nat),
      (translateBatchIndividually call src tgt ⟨[], calls⟩ batch).1 =
        batch.map (fun b => { b with translated_text := b.text }) ∧
      (translateBatchIndividually call src tgt ⟨[], calls⟩ batch).2.cache = [] := by
  intro batch
  induction batch with
  | nil => intro calls; exact ⟨rfl, rfl⟩
  | cons b bs ih =>
    intro calls
    by_cases hws : pyStrip b.text = ""
    · simp only [translateBatchIndividually, translateText, if_pos hws]
      exact ⟨by rw [List.map_cons, (ih calls).1], (ih calls).2⟩
    · simp only [translateBatchIndividually, translateText, if_neg hws, List.lookup_nil, hc]
      exact ⟨by rw [List.map_cons, (ih (calls + 1)).1], (ih (calls + 1)).2⟩

/-- A batch whose blocks all strip to whitespace contributes no texts. -/
theorem nonWsTexts_eq_nil {batch : List TextBlock}
    (h : ∀ b ∈ batch, pyStrip b.text = "") : nonWsTexts batch = [] := by
  unfold nonWsTexts
  rw [List.filter_eq_nil_iff.mpr]
  · rfl
  · intro b hb
    simp [h b hb]


/-- C6: if the external call for a single text fails, `translate_text`
returns the source text unchanged (the function is total: it never raises
and never drops the fragment); and if a whole batch call fails, every block
of that batch is retried individually, so in the worst case (every
individual call failing too, nothing cached) the translated text of each block
is its own source text — no block is dropped. -/
theorem c6_failure_passthrough :
    (∀ (call : String → String → String → Option String) (s : TransState)
       (text src tgt : String),
       s.cache.lookup (cacheKey text src tgt) = none →
       call text src tgt = none →
       (translateText call s text src tgt).1 = text) ∧
    (∀ (batchCall : List String → Option String)
       (call : String → String → String → Option String)
       (src tgt : String) (s : TransState) (batch : List TextBlock),
       batchCall (nonWsTexts batch) = none →
       (∀ t u v, call t u v = none) →
       s.cache = [] →
       ¬(nonWsTexts batch).isEmpty →
       (translateBatchWithContext batchCall call src tgt s batch).1 =
         batch.map (fun b => { b with translated_text := b.text })) := by
  constructor
  · intro call s text src tgt hl hc
    unfold translateText
    by_cases hws : pyStrip text = ""
    · rw [if_pos hws]
    · rw [if_neg hws, hl, hc]
  · intro batchCall call src tgt s batch hbc hc hcache hne
    unfold translateBatchWithContext
    simp only []
    rw [if_neg hne, hbc]
    obtain ⟨cache, calls⟩ := s
    simp only at hcache
    subst hcache
    exact (translateBatchIndividually_all_fail call src tgt hc batch (calls + 1)).1

/-- C6 (witness): both halves of the failure-passthrough theorem applied
at a concrete failing oracle, an empty cache and a one-block batch. -/
theorem c6_failure_passthrough_witness :
    (TransState.mk [] 0).cache.lookup (cacheKey "hi" "en" "ru") = none ∧
    (translateText (fun _ _ _ => none) ⟨[], 0⟩ "hi" "en" "ru").1 = "hi" ∧
    (translateBatchWithContext (fun _ => none) (fun _ _ _ => none) "en" "ru" ⟨[], 0⟩
        [⟨"hello", ⟨0, 0, 1, 1⟩, "f", 1, (0, 0, 0), 0, ""⟩]).1 =
      [⟨"hello", ⟨0, 0, 1, 1⟩, "f", 1, (0, 0, 0), 0, "hello"⟩] :=
  ⟨rfl,
   c6_failure_passthrough.1 (fun _ _ _ => none) ⟨[], 0⟩ "hi" "en" "ru" rfl rfl,
   c6_failure_passthrough.2 (fun _ => none) (fun _ _ _ => none) "en" "ru" ⟨[], 0⟩
     [⟨"hello", ⟨0, 0, 1, 1⟩, "f", 1, (0, 0, 0), 0, ""⟩] rfl (fun _ _ _ => rfl) rfl (by decide)⟩


/-- C7 (amended): provided the external call for the key succeeds,
translating the same `(text, src, tgt)` twice yields the same rendered text
and issues at most one external call in total — the second lookup is served
from the cache.  (The unqualified claim fails: a failed call caches
nothing, so an immediate retry issues a second external call.) -/
theorem c7_cache_idempotent_on_success (call : String → String → String → Option String)
    (s : TransState) (text src tgt reply : String)
    (hc : call text src tgt = some reply) :
    (translateText call s text src tgt).1 =
      (translateText call (translateText call s text src tgt).2 text src tgt).1 ∧
    (translateText call (translateText call s text src tgt).2 text src tgt).2.calls
      ≤ s.calls + 1 := by
  unfold translateText
  by_cases hws : pyStrip text = ""
  · simp only [if_pos hws]
    exact ⟨by trivial, Nat.le_succ _⟩
  · simp only [if_neg hws]
    cases hl : s.cache.lookup (cacheKey text src tgt) with
    | some v =>
      simp only [hl]
      exact ⟨by trivial, Nat.le_succ _⟩
    | none =>
      simp only [hl, hc]
      have hl2 : ((cacheKey text src tgt, pyStrip reply) :: s.cache).lookup
          (cacheKey text src tgt) = some (pyStrip reply) := by
        simp [List.lookup]
      simp only [hl2]
      exact ⟨by trivial, le_refl _⟩

/-- C7 (witness): the cache-idempotence theorem applied at a concrete
succeeding oracle and the key `("hello", "en", "ru")` from an empty
state. -/
theorem c7_cache_idempotent_on_success_witness :
    ((fun _ _ _ => some "X") : String → String → String → Option String) "hello" "en" "ru"
        = some "X" ∧
    (translateText (fun _ _ _ => some "X") ⟨[], 0⟩ "hello" "en" "ru").1 =
      (translateText (fun _ _ _ => some "X")
        (translateText (fun _ _ _ => some "X") ⟨[], 0⟩ "hello" "en" "ru").2
        "hello" "en" "ru").1 ∧
    (translateText (fun _ _ _ => some "X")
        (translateText (fun _ _ _ => some "X") ⟨[], 0⟩ "hello" "en" "ru").2
        "hello" "en" "ru").2.calls ≤ 0 + 1 :=
  ⟨rfl, (c7_cache_idempotent_on_success (fun _ _ _ => some "X") ⟨[], 0⟩ "hello" "en" "ru" "X" rfl).1,
    (c7_cache_idempotent_on_success (fun _ _ _ => some "X") ⟨[], 0⟩ "hello" "en" "ru" "X" rfl).2⟩

/-- C7 (counterexample): with an external call that fails, translating the
same `("hello", "en", "ru")` key twice issues two external calls — the
failure path caches nothing, so the claimed "at most one external call"
is violated (both results are still the source text). -/
theorem c7_counterexample :
    (translateText (fun _ _ _ => none)
        (translateText (fun _ _ _ => none) ⟨[], 0⟩ "hello" "en" "ru").2
        "hello" "en" "ru").2.calls = 2 ∧
    ¬(translateText (fun _ _ _ => none)
        (translateText (fun _ _ _ => none) ⟨[], 0⟩ "hello" "en" "ru").2
        "hello" "en" "ru").2.calls ≤ 0 + 1 := by
  exact ⟨by decide, by decide⟩

/-- C9: a batch whose fragments are all whitespace-only returns
immediately from `_translate_batch_with_context` with the state unchanged —
zero external translation calls — and each such fragment (whose
`translated_text` is still the dataclass default `""`) renders via the
`translated_text or text` fallback as its own source text. -/
theorem c9_whitespace_batch_no_calls (batchCall : List String → Option String)
    (call : String → String → String → Option String)
    (src tgt : String) (s : TransState) (batch : List TextBlock)
    (hws : ∀ b ∈ batch, pyStrip b.text = "") :
    translateBatchWithContext batchCall call src tgt s batch = (batch, s) ∧
    (∀ b ∈ batch, b.translated_text = "" → renderedText b = b.text) := by
  constructor
  · unfold translateBatchWithContext
    simp only []
    rw [nonWsTexts_eq_nil hws]
    rfl
  · intro b _ hbt
    unfold renderedText
    rw [if_pos hbt]

/-- C9 (witness): the whitespace-batch theorem applied to a concrete
two-block whitespace-only batch. -/
theorem c9_whitespace_batch_no_calls_witness :
    (∀ b ∈ ([⟨" ", ⟨0, 0, 1, 1⟩, "f", 1, (0, 0, 0), 0, ""⟩,
             ⟨"", ⟨0, 2, 1, 3⟩, "f", 1, (0, 0, 0), 0, ""⟩] : List TextBlock),
       pyStrip b.text = "") ∧
    translateBatchWithContext (fun _ => some "X") (fun _ _ _ => none) "en" "ru" ⟨[], 5⟩
        [⟨" ", ⟨0, 0, 1, 1⟩, "f", 1, (0, 0, 0), 0, ""⟩,
         ⟨"", ⟨0, 2, 1, 3⟩, "f", 1, (0, 0, 0), 0, ""⟩] =
      ([⟨" ", ⟨0, 0, 1, 1⟩, "f", 1, (0, 0, 0), 0, ""⟩,
        ⟨"", ⟨0, 2, 1, 3⟩, "f", 1, (0, 0, 0), 0, ""⟩], ⟨[], 5⟩) :=
  ⟨by decide,
   (c9_whitespace_batch_no_calls (fun _ => some "X") (fun _ _ _ => none) "en" "ru" ⟨[], 5⟩ _ (by decide)).1⟩


/-- The assignment loop preserves every field except `translated_text`,
block by block, in order. -/
theorem applyTranslations_map_frameOf (src tgt : String) :
    ∀ (batch : List TextBlock) (ts : List String) (c : List (String × String)),
      ((applyTranslations src tgt batch ts c).1).map frameOf = batch.map frameOf := by
  intro batch
  induction batch with
  | nil => intro ts c; rfl
  | cons b bs ih =>
    intro ts c
    by_cases hws : pyStrip b.text = ""
    · simp only [applyTranslations, if_pos hws, List.map_cons]
      rw [ih ts c]
      rfl
    · cases ts with
      | nil =>
        simp only [applyTranslations, if_neg hws, List.map_cons]
        rw [ih [] c]
        rfl
      | cons t ts' =>
        simp only [applyTranslations, if_neg hws, List.map_cons]
        rw [ih ts' ((cacheKey b.text src tgt, t) :: c)]
        rfl

/-- The individual fallback preserves every field except
`translated_text`, block by block, in order. -/
theorem translateBatchIndividually_map_frameOf
    (call : String → String → String → Option String) (src tgt : String) :
    ∀ (batch : List TextBlock) (s : TransState),
      ((translateBatchIndividually call src tgt s batch).1).map frameOf =
        batch.map frameOf := by
  intro batch
  induction batch with
  | nil => intro s; rfl
  | cons b bs ih =>
    intro s
    simp only [translateBatchIndividually, List.map_cons]
    rw [ih]
    rfl

/-- C8: across translation and composition, the page
index, bounding box, source text, font, nominal size and color of every text block are left
unchanged — batch translation (any path: empty batch, successful batch
call, or individual fallback) rewrites only `translated_text`, and the
shift of the side-by-side compositor produces a copy whose bounding box x
coordinates are offset while every other field (including
`translated_text`) is taken over unchanged; the input block itself is
never modified. -/
theorem c8_only_translated_text_written :
    (∀ (batchCall : List String → Option String)
       (call : String → String → String → Option String)
       (src tgt : String) (s : TransState) (batch : List TextBlock),
       ((translateBatchWithContext batchCall call src tgt s batch).1).map frameOf =
         batch.map frameOf) ∧
    (∀ (offset_x : ℚ) (b : TextBlock),
       shiftBlock offset_x b =
         { b with bbox := ⟨b.bbox.x0 + offset_x, b.bbox.y0,
                           b.bbox.x1 + offset_x, b.bbox.y1⟩ }) := by
  constructor
  · intro batchCall call src tgt s batch
    unfold translateBatchWithContext
    simp only []
    by_cases hne : (nonWsTexts batch).isEmpty
    · rw [if_pos hne]
    · rw [if_neg hne]
      cases hbc : batchCall (nonWsTexts batch) with
      | some reply =>
        simp only []
        exact applyTranslations_map_frameOf src tgt batch _ s.cache
      | none =>
        exact translateBatchIndividually_map_frameOf call src tgt batch _
  · intro offset_x b
    rfl

/-- Filtering a list whose projected indices are consecutive from `s` by
membership in the half-open range `[a, b)` keeps exactly a contiguous
slice. -/
theorem filter_range_eq_drop_take {α : Type} (pn : α → Nat) :
    ∀ (l : List α) (s a b : Nat), l.map pn = List.range' s l.length →
      l.filter (fun x => decide (a ≤ pn x) && decide (pn x < b)) =
        (l.drop (a - s)).take (b - max a s) := by
  intro l
  induction l with
  | nil => intro s a b _; simp
  | cons x t ih =>
    intro s a b hmap
    rw [List.map_cons, List.length_cons, List.range'_succ] at hmap
    injection hmap with hx ht
    have iht := ih (s + 1) a b ht
    by_cases h1 : a ≤ s
    · by_cases h2 : s < b
      · have e1 : a - s = 0 := by omega
        have e2 : max a s = s := by omega
        have e3 : b - s = (b - (s + 1)) + 1 := by omega
        rw [List.filter_cons_of_pos (by simp [hx, h1, h2]), e1, e2, List.drop_zero, e3,
          List.take_succ_cons, iht]
        have e4 : a - (s + 1) = 0 := by omega
        have e5 : max a (s + 1) = s + 1 := by omega
        rw [e4, e5, List.drop_zero]
      · have e1 : b - max a s = 0 := by omega
        rw [List.filter_cons_of_neg (by simp [hx]; omega), e1, List.take_zero, iht]
        have e4 : b - max a (s + 1) = 0 := by omega
        rw [e4, List.take_zero]
    · have e1 : a - s = (a - (s + 1)) + 1 := by omega
      have e2 : max a s = a := by omega
      rw [List.filter_cons_of_neg (by simp [hx]; omega), e1, e2, List.drop_succ_cons, iht]
      have e5 : max a (s + 1) = a := by omega
      rw [e5]

/-- Concatenating the consecutive `B`-sized slices `0, B, 2B, ...` of a
list reassembles its prefix of length `m * B`. -/
theorem flatten_range_drop_take {α : Type} (l : List α) (B : Nat) :
    ∀ m, ((List.range m).map (fun k => (l.drop (k * B)).take B)).flatten = l.take (m * B) := by
  intro m
  induction m with
  | zero => simp
  | succ m ih =>
    rw [List.range_succ, List.map_append, List.flatten_append, ih]
    simp only [List.map_cons, List.map_nil, List.flatten_cons, List.flatten_nil,
      List.append_nil]
    rw [← List.take_add, Nat.succ_mul]

/-- `ceil(n / B) * B ≥ n`: the page-range batches jointly cover every
page. -/
theorem ceil_div_mul_ge (n B : Nat) (hB : 0 < B) : n ≤ ((n + B - 1) / B) * B := by
  rcases Nat.eq_zero_or_pos n with h | h
  · simp [h]
  · have h1 : n + B - 1 = (n - 1) + B := by omega
    rw [h1, Nat.add_div_right _ hB, Nat.succ_mul, Nat.mul_comm]
    have key := Nat.div_add_mod (n - 1) B
    have hr : (n - 1) % B < B := Nat.mod_lt _ hB
    omega


/-- C5: for every document whose pages are numbered consecutively from 0
(as the extractor produces them) and every `pages_per_batch ≥ 1`,
processing the pages in page-range batches and merging the batch outputs in
ascending batch order yields exactly the same list of composed pages — the
same page count, page order and per-page content — as a single
`create_side_by_side_pdf` pass over the whole document. -/
theorem c5_batches_merge_like_single_pass (pages : List PageInfo) (text_blocks : List TextBlock) (ppb : Nat)
    (hppb : 0 < ppb)
    (hnum : pages.map PageInfo.page_number = List.range pages.length) :
    mergeBatchPdfs (processLargePdfInBatches pages text_blocks ppb) =
      createSideBySidePdf pages text_blocks none := by
  have hfil : ∀ k : Nat,
      pages.filter (fun (p : PageInfo) => decide (k * ppb ≤ p.page_number) &&
        decide (p.page_number < min (k * ppb + ppb) pages.length)) =
      (pages.drop (k * ppb)).take ppb := by
    intro k
    rw [filter_range_eq_drop_take PageInfo.page_number pages 0 _ _
      (by rw [hnum, List.range_eq_range'])]
    have e1 : k * ppb - 0 = k * ppb := by omega
    rw [e1, List.take_eq_take]
    simp only [List.length_drop]
    omega
  unfold mergeBatchPdfs processLargePdfInBatches createSideBySidePdf
  simp only []
  calc ((List.range ((pages.length + ppb - 1) / ppb)).map (fun k =>
          (pages.filter (fun (p : PageInfo) => decide (k * ppb ≤ p.page_number) &&
            decide (p.page_number < min (k * ppb + ppb) pages.length))).map
              (composePage text_blocks))).flatten
      = ((List.range ((pages.length + ppb - 1) / ppb)).map (fun k =>
          ((pages.drop (k * ppb)).take ppb).map (composePage text_blocks))).flatten := by
        congr 1
        exact List.map_congr_left (fun k _ => by rw [hfil k])
    _ = (((List.range ((pages.length + ppb - 1) / ppb)).map (fun k =>
          (pages.drop (k * ppb)).take ppb)).map (List.map (composePage text_blocks))).flatten := by
        rw [List.map_map]
        rfl
    _ = (((List.range ((pages.length + ppb - 1) / ppb)).map (fun k =>
          (pages.drop (k * ppb)).take ppb)).flatten).map (composePage text_blocks) :=
        (List.map_flatten _ _).symm
    _ = (pages.take (((pages.length + ppb - 1) / ppb) * ppb)).map (composePage text_blocks) := by
        rw [flatten_range_drop_take]
    _ = pages.map (composePage text_blocks) := by
        rw [List.take_of_length_le (ceil_div_mul_ge pages.length ppb hppb)]

/-- C5 (witness): the batch/merge equivalence applied to a concrete
3-page document with one text block and `pages_per_batch = 2`. -/
theorem c5_batches_merge_like_single_pass_witness :
    (0 : Nat) < 2 ∧
    ([⟨0, 10, 20, 0⟩, ⟨1, 10, 20, 0⟩, ⟨2, 12, 24, 0⟩] : List PageInfo).map
        PageInfo.page_number = List.range 3 ∧
    mergeBatchPdfs (processLargePdfInBatches
        [⟨0, 10, 20, 0⟩, ⟨1, 10, 20, 0⟩, ⟨2, 12, 24, 0⟩]
        [⟨"hi", ⟨1, 2, 3, 4⟩, "f", 5, (0, 0, 0), 1, "xx"⟩] 2) =
      createSideBySidePdf [⟨0, 10, 20, 0⟩, ⟨1, 10, 20, 0⟩, ⟨2, 12, 24, 0⟩]
        [⟨"hi", ⟨1, 2, 3, 4⟩, "f", 5, (0, 0, 0), 1, "xx"⟩] none :=
  ⟨by decide, by decide,
   c5_batches_merge_like_single_pass
     [⟨0, 10, 20, 0⟩, ⟨1, 10, 20, 0⟩, ⟨2, 12, 24, 0⟩]
     [⟨"hi", ⟨1, 2, 3, 4⟩, "f", 5, (0, 0, 0), 1, "xx"⟩] 2 (by decide) (by decide)⟩

/-- The blocks produced by the assignment loop do not depend on the cache
it threads. -/
theorem applyTranslations_fst_cache_indep (src tgt : String) :
    ∀ (batch : List TextBlock) (ts : List String) (c c' : List (String × String)),
      (applyTranslations src tgt batch ts c).1 = (applyTranslations src tgt batch ts c').1 := by
  intro batch
  induction batch with
  | nil => intro ts c c'; rfl
  | cons b bs ih =>
    intro ts c c'
    by_cases hws : pyStrip b.text = ""
    · simp only [applyTranslations, if_pos hws]
      rw [ih ts c c']
    · cases ts with
      | nil =>
        simp only [applyTranslations, if_neg hws]
        rw [ih [] c c']
      | cons t ts' =>
        simp only [applyTranslations, if_neg hws]
        rw [ih ts' ((cacheKey b.text src tgt, t) :: c) ((cacheKey b.text src tgt, t) :: c')]

/-- When the translation list has exactly one entry per non-whitespace
block, the assignment loop hands the i-th entry to the i-th non-whitespace
block: reading the translated texts of the non-whitespace output blocks in
order gives back the translation list. -/
theorem applyTranslations_assign (src tgt : String) :
    ∀ (batch : List TextBlock) (ts : List String) (c : List (String × String)),
      ts.length = (batch.filter (fun b => !(pyStrip b.text == ""))).length →
      (((applyTranslations src tgt batch ts c).1).filter
          (fun b => !(pyStrip b.text == ""))).map (·.translated_text) = ts := by
  intro batch
  induction batch with
  | nil =>
    intro ts c hlen
    simp only [List.filter_nil, List.length_nil] at hlen
    rw [List.length_eq_zero.mp hlen]
    rfl
  | cons b bs ih =>
    intro ts c hlen
    by_cases hws : pyStrip b.text = ""
    · simp only [List.filter_cons, hws, beq_self_eq_true, Bool.not_true, if_false,
        Bool.false_eq_true] at hlen
      simp only [applyTranslations, if_pos hws]
      have htxt : pyStrip (({ b with translated_text := b.text } : TextBlock).text) = "" := hws
      simp only [List.filter_cons, htxt, beq_self_eq_true, Bool.not_true, if_false,
        Bool.false_eq_true]
      exact ih ts c hlen
    · have hbeq : (pyStrip b.text == "") = false := by
        simp [hws]
      simp only [List.filter_cons, hbeq, Bool.not_false, if_true, List.length_cons] at hlen
      cases ts with
      | nil => simp at hlen
      | cons t ts' =>
        simp only [List.length_cons, Nat.succ.injEq] at hlen
        simp only [applyTranslations, if_neg hws]
        have hbeq2 : (pyStrip (({ b with translated_text := t } : TextBlock).text) == "")
            = false := hbeq
        simp only [List.filter_cons, hbeq2, Bool.not_false, if_true, List.map_cons]
        rw [ih ts' ((cacheKey b.text src tgt, t) :: c) hlen]

/-- On a successful batch call with at least one non-whitespace text, the
output blocks are those of the assignment loop applied to the parsed
reply. -/
theorem translateBatchWithContext_success_fst (batchCall : List String → Option String)
    (call : String → String → String → Option String) (src tgt : String)
    (s : TransState) (batch : List TextBlock) (reply : String)
    (hne : ¬(nonWsTexts batch).isEmpty)
    (hbc : batchCall (nonWsTexts batch) = some reply) :
    (translateBatchWithContext batchCall call src tgt s batch).1 =
      (applyTranslations src tgt batch
        (parseBatchResponse (pyStrip reply) (nonWsTexts batch).length) s.cache).1 := by
  unfold translateBatchWithContext
  simp only []
  rw [if_neg hne, hbc]

/-- Under an always-succeeding batch oracle, the output blocks of a batch
do not depend on the incoming translator state. -/
theorem translateBatchWithContext_fst_indep (batchCall : List String → Option String)
    (call : String → String → String → Option String) (src tgt : String)
    (batch : List TextBlock)
    (hsucc : ∀ ts, (batchCall ts).isSome) :
    ∀ s s' : TransState,
      (translateBatchWithContext batchCall call src tgt s batch).1 =
        (translateBatchWithContext batchCall call src tgt s' batch).1 := by
  intro s s'
  by_cases hne : (nonWsTexts batch).isEmpty
  · unfold translateBatchWithContext
    simp only []
    rw [if_pos hne, if_pos hne]
  · cases hbc : batchCall (nonWsTexts batch) with
    | none =>
      have := hsucc (nonWsTexts batch)
      rw [hbc] at this
      simp at this
    | some reply =>
      rw [translateBatchWithContext_success_fst batchCall call src tgt s batch reply hne hbc,
        translateBatchWithContext_success_fst batchCall call src tgt s' batch reply hne hbc]
      exact applyTranslations_fst_cache_indep src tgt batch _ s.cache s'.cache

/-- Batch translation preserves every field except `translated_text`,
block by block, in order, on every path. -/
theorem translateBatchWithContext_map_frameOf (batchCall : List String → Option String)
    (call : String → String → String → Option String) (src tgt : String)
    (s : TransState) (batch : List TextBlock) :
    ((translateBatchWithContext batchCall call src tgt s batch).1).map frameOf =
      batch.map frameOf := by
  unfold translateBatchWithContext
  simp only []
  by_cases hne : (nonWsTexts batch).isEmpty
  · rw [if_pos hne]
  · rw [if_neg hne]
    cases hbc : batchCall (nonWsTexts batch) with
    | some reply =>
      simp only []
      exact applyTranslations_map_frameOf src tgt batch _ s.cache
    | none =>
      exact translateBatchIndividually_map_frameOf call src tgt batch _

/-- On a successful batch call, reading the translated texts of the
non-whitespace output blocks in order gives exactly the parsed reply
(which has exactly one entry per non-whitespace text). -/
theorem translateBatchWithContext_assign (batchCall : List String → Option String)
    (call : String → String → String → Option String) (src tgt : String)
    (s : TransState) (batch : List TextBlock) (reply : String)
    (hbc : batchCall (nonWsTexts batch) = some reply) :
    (((translateBatchWithContext batchCall call src tgt s batch).1).filter
        (fun b => !(pyStrip b.text == ""))).map (·.translated_text) =
      parseBatchResponse (pyStrip reply) (nonWsTexts batch).length := by
  have hflen : (nonWsTexts batch).length =
      (batch.filter (fun b => !(pyStrip b.text == ""))).length := by
    unfold nonWsTexts
    rw [List.length_map]
  by_cases hne : (nonWsTexts batch).isEmpty
  · have hnil : nonWsTexts batch = [] := List.isEmpty_iff.mp hne
    have hfnil : batch.filter (fun b => !(pyStrip b.text == "")) = [] := by
      have := hflen
      rw [hnil] at this
      exact List.length_eq_zero.mp this.symm
    have hout : (translateBatchWithContext batchCall call src tgt s batch).1 = batch := by
      unfold translateBatchWithContext
      simp only []
      rw [if_pos hne]
    rw [hout, hfnil]
    have : parseBatchResponse (pyStrip reply) (nonWsTexts batch).length = [] := by
      rw [hnil]
      exact List.length_eq_zero.mp (parseBatchResponse_length (pyStrip reply) 0)
    rw [this]
    rfl
  · rw [translateBatchWithContext_success_fst batchCall call src tgt s batch reply hne hbc]
    exact applyTranslations_assign src tgt batch _ s.cache
      ((parseBatchResponse_length _ _).trans hflen)

/-- Under an always-succeeding batch oracle, page-level translation is the
concatenation, in order, of the per-batch outputs over the `(y0, x0)`-sorted
blocks taken in consecutive `batch_size` slices. -/
theorem translatePageBlocks_fst (batchCall : List String → String → Option String)
    (call : String → String → String → Option String) (src tgt : String)
    (B : Nat) (s : TransState) (blocks : List TextBlock)
    (hsucc : ∀ ts ctx, (batchCall ts ctx).isSome) :
    (translatePageBlocks batchCall call src tgt B s blocks).1 =
      (List.range (((sortBlocks blocks).length + B - 1) / B)).flatMap
        (fun k => (translateBatchWithContext
            (fun ts => batchCall ts (buildContext (sortBlocks blocks) (k * B) B))
            call src tgt ⟨[], 0⟩ (((sortBlocks blocks).drop (k * B)).take B)).1) := by
  unfold translatePageBlocks
  simp only []
  have aux : ∀ (ks : List Nat) (acc : List TextBlock) (st : TransState),
      (ks.foldl (fun acc k =>
          (acc.1 ++ (translateBatchWithContext
              (fun ts => batchCall ts (buildContext (sortBlocks blocks) (k * B) B))
              call src tgt acc.2 (((sortBlocks blocks).drop (k * B)).take B)).1,
            (translateBatchWithContext
              (fun ts => batchCall ts (buildContext (sortBlocks blocks) (k * B) B))
              call src tgt acc.2 (((sortBlocks blocks).drop (k * B)).take B)).2))
          (acc, st)).1 =
        acc ++ ks.flatMap (fun k => (translateBatchWithContext
            (fun ts => batchCall ts (buildContext (sortBlocks blocks) (k * B) B))
            call src tgt ⟨[], 0⟩ (((sortBlocks blocks).drop (k * B)).take B)).1) := by
    intro ks
    induction ks with
    | nil => intro acc st; simp
    | cons k ks ih =>
      intro acc st
      rw [List.foldl_cons, ih, List.flatMap_cons, ← List.append_assoc]
      congr 2
      exact translateBatchWithContext_fst_indep _ call src tgt _
        (fun ts => hsucc ts _) st ⟨[], 0⟩
  exact aux _ [] s

/-- C1: `_translate_page_blocks` processes the blocks of a page sorted by
the key `(y0, x0)` — the output is a permutation of the input arranged in
that sorted order (block identity witnessed by all fields except
`translated_text`) — and, when every batch reply arrives, the translated
texts of the non-whitespace output blocks, in sorted order, are exactly the
concatenation of each batch reply parsed positionally: the i-th parsed
translation of a batch goes to the i-th non-whitespace fragment of that
batch, for arbitrary fragment text content and arbitrary replies. -/
theorem c1_sorted_positional_assignment (blocks : List TextBlock) (replyFn : List String → String → String)
    (call : String → String → String → Option String)
    (src tgt : String) (B : Nat) (s : TransState) (hB : 0 < B) :
    (sortBlocks blocks).Perm blocks ∧
    List.Sorted keyLE (sortBlocks blocks) ∧
    ((translatePageBlocks (fun ts ctx => some (replyFn ts ctx)) call src tgt B s blocks).1).map
        frameOf = (sortBlocks blocks).map frameOf ∧
    (((translatePageBlocks (fun ts ctx => some (replyFn ts ctx)) call src tgt B s
          blocks).1).filter (fun b => !(pyStrip b.text == ""))).map (·.translated_text) =
      (List.range (((sortBlocks blocks).length + B - 1) / B)).flatMap
        (fun k => parseBatchResponse
          (pyStrip (replyFn (nonWsTexts (((sortBlocks blocks).drop (k * B)).take B))
            (buildContext (sortBlocks blocks) (k * B) B)))
          (nonWsTexts (((sortBlocks blocks).drop (k * B)).take B)).length) := by
  have hsucc : ∀ ts ctx, ((fun ts ctx => some (replyFn ts ctx)) ts ctx).isSome :=
    fun ts ctx => rfl
  have hfst := translatePageBlocks_fst (fun ts ctx => some (replyFn ts ctx)) call src tgt B s
    blocks hsucc
  refine ⟨List.perm_insertionSort keyLE blocks, List.sorted_insertionSort keyLE blocks, ?_, ?_⟩
  · rw [hfst, List.map_flatMap]
    have hcongr : ∀ k ∈ List.range (((sortBlocks blocks).length + B - 1) / B),
        ((translateBatchWithContext
            (fun ts => some (replyFn ts (buildContext (sortBlocks blocks) (k * B) B)))
            call src tgt ⟨[], 0⟩ (((sortBlocks blocks).drop (k * B)).take B)).1).map frameOf =
          (((sortBlocks blocks).drop (k * B)).take B).map frameOf :=
      fun k _ => translateBatchWithContext_map_frameOf _ call src tgt ⟨[], 0⟩ _
    rw [List.flatMap_congr hcongr, ← List.map_flatMap]
    congr 1
    rw [List.flatMap_def, flatten_range_drop_take]
    exact List.take_of_length_le (ceil_div_mul_ge (sortBlocks blocks).length B hB)
  · rw [hfst, List.filter_flatMap, List.map_flatMap]
    exact List.flatMap_congr (fun k _ =>
      translateBatchWithContext_assign _ call src tgt ⟨[], 0⟩ _ _ rfl)

/-- C1 (witness): the positional-assignment conjunct applied to a concrete
three-block page (including a whitespace-only block, unsorted input order)
with batch size 2 and reply `"X---Y"` for every batch. -/
theorem c1_sorted_positional_assignment_witness :
    (0 : Nat) < 2 ∧
    (((translatePageBlocks (fun _ _ => some "X---Y") (fun _ _ _ => none) "en" "ru" 2 ⟨[], 0⟩
          [⟨"B", ⟨0, 100, 2, 3⟩, "f", 1, (0, 0, 0), 0, ""⟩,
           ⟨"A", ⟨0, 50, 2, 3⟩, "f", 1, (0, 0, 0), 0, ""⟩,
           ⟨" ", ⟨0, 70, 2, 3⟩, "f", 1, (0, 0, 0), 0, ""⟩]).1).filter
        (fun b => !(pyStrip b.text == ""))).map (·.translated_text) =
      (List.range (((sortBlocks
            [⟨"B", ⟨0, 100, 2, 3⟩, "f", 1, (0, 0, 0), 0, ""⟩,
             ⟨"A", ⟨0, 50, 2, 3⟩, "f", 1, (0, 0, 0), 0, ""⟩,
             ⟨" ", ⟨0, 70, 2, 3⟩, "f", 1, (0, 0, 0), 0, ""⟩]).length + 2 - 1) / 2)).flatMap
        (fun k => parseBatchResponse (pyStrip "X---Y")
          (nonWsTexts (((sortBlocks
              [⟨"B", ⟨0, 100, 2, 3⟩, "f", 1, (0, 0, 0), 0, ""⟩,
               ⟨"A", ⟨0, 50, 2, 3⟩, "f", 1, (0, 0, 0), 0, ""⟩,
               ⟨" ", ⟨0, 70, 2, 3⟩, "f", 1, (0, 0, 0), 0, ""⟩]).drop (k * 2)).take 2)).length) :=
  ⟨by decide,
   (c1_sorted_positional_assignment
     [⟨"B", ⟨0, 100, 2, 3⟩, "f", 1, (0, 0, 0), 0, ""⟩,
      ⟨"A", ⟨0, 50, 2, 3⟩, "f", 1, (0, 0, 0), 0, ""⟩,
      ⟨" ", ⟨0, 70, 2, 3⟩, "f", 1, (0, 0, 0), 0, ""⟩]
     (fun _ _ => "X---Y") (fun _ _ _ => none) "en" "ru" 2 ⟨[], 0⟩ (by decide)).2.2.2⟩

end PdfTranslator
